import Mathlib

/-!
Verification of the VSO query-algebra / response-normalization specification
of the sunpy repository.

The VSO subsystem itself (sunpy/net/attr.py, sunpy/net/vso/*) is not part of
the sampled sources; only its test suite is.  Following the specification,
the data model and the operations are therefore modelled here from the
specification's own words (each such definition carries a doc comment
starting with `Modelled from the spec:`), and the claims are settled against
these models.  Integer timestamps stand for parsed provider timestamps and
wavelength bounds (both are totally ordered scalar values; an interval
predicate covers the half-open range [lo, hi)).
-/

namespace SunpyVSO

/-! ## The attribute (predicate) model -/

/-- Modelled from the spec: the "simple" predicate kinds of the attribute
model (name-valued search criteria). -/
inductive SimpleType
  | instrument
  | source
  | detector
  | provider
deriving DecidableEq, Repr

/-- Modelled from the spec: the interval-valued predicate kinds
(Time and Wavelength). -/
inductive IntervalType
  | time
  | wavelength
deriving DecidableEq, Repr

/-- A half-open scalar interval [lo, hi); stands for a time range or a
wavelength range. -/
structure Interval where
  lo : Nat
  hi : Nat
deriving DecidableEq, Repr

/-- Membership of a point in the half-open interval. -/
def Interval.mem (iv : Interval) (x : Nat) : Bool :=
  decide (iv.lo ≤ x ∧ x < iv.hi)

/-- Modelled from the spec: a Predicate is a tagged variant over
Time(start,end), Wavelength(min,max), Instrument(name), Source(name),
Detector(name), Provider(name); immutable, equality by tag + field values. -/
inductive Pred
  | simple (t : SimpleType) (value : String)
  | interval (t : IntervalType) (iv : Interval)
deriving DecidableEq, Repr

/-- The type tag of a predicate. -/
inductive PredType
  | simpleT (t : SimpleType)
  | intervalT (t : IntervalType)
deriving DecidableEq, Repr

def Pred.ptype : Pred → PredType
  | .simple t _ => .simpleT t
  | .interval t _ => .intervalT t

/-- Modelled from the spec: exclusivity is declared once per predicate type;
every predicate type of this model (Instrument, Source, Detector, Provider,
Time, Wavelength) is exclusive: no two values of it can hold simultaneously
inside one conjunction. -/
def PredType.exclusive : PredType → Bool :=
  fun _ => true

/-- Two predicates collide when they share an exclusive type. -/
def collides (p q : Pred) : Bool :=
  decide (p.ptype = q.ptype) && p.ptype.exclusive

/-- Modelled from the spec: an Attribute Expression is a single predicate, a
conjunction of predicates, or a disjunction of conjunctions. -/
inductive AttrExpr
  | single (p : Pred)
  | conj (ps : List Pred)
  | disj (cs : List (List Pred))
deriving DecidableEq, Repr

/-- Every attribute expression viewed as a disjunction of conjunctions. -/
def AttrExpr.branches : AttrExpr → List (List Pred)
  | .single p => [[p]]
  | .conj ps => [ps]
  | .disj cs => cs

/-- Modelled from the spec: structural equality is independent of
construction order within a conjunction (and among the branches of a
disjunction): normalize before compare.  The normal form of an expression is
the multiset of its branches, each branch the multiset of its predicates. -/
def AttrExpr.normalize (e : AttrExpr) : Multiset (Multiset Pred) :=
  Multiset.ofList (e.branches.map Multiset.ofList)

/-- Structural equality of attribute expressions, order-independent. -/
def attrEq (a b : AttrExpr) : Bool :=
  decide (a.normalize = b.normalize)

/-- Modelled from the spec: OR returns a disjunction of conjunctions,
flattening nested disjunctions; joining an expression with a structurally
equal one returns the expression itself (idempotence). -/
def attrOr (a b : AttrExpr) : AttrExpr :=
  if attrEq a b then a else .disj (a.branches ++ b.branches)

/-- Sequencing of fallible computations over a list (kept explicit so that
proofs can proceed by plain structural induction). -/
def optionAll {α β : Type} (f : α → Option β) : List α → Option (List β)
  | [] => some []
  | a :: as =>
    match f a, optionAll f as with
    | some b, some bs => some (b :: bs)
    | _, _ => none

/-- Adjoining one predicate to a conjunction; `none` models the raised
TypeError when the new predicate collides with one already present. -/
def conjAnd (ps : List Pred) (q : Pred) : Option (List Pred) :=
  if ps.any (fun p => collides p q) then none else some (ps ++ [q])

/-- Merging two conjunctions, adjoining the right branch one predicate at a
time (collisions fail the whole merge). -/
def conjConjAnd (ps qs : List Pred) : Option (List Pred) :=
  qs.foldlM conjAnd ps

/-- Modelled from the spec: AND returns a conjunction and fails with a
TypeError-equivalent (here: `none`) if the two sides hold predicates of the
same exclusive type; applied to disjunctions it distributes into every
branch, and a failure inside any branch fails the whole operation. -/
def andExpr (a b : AttrExpr) : Option AttrExpr :=
  (optionAll (fun cab => conjConjAnd cab.1 cab.2)
      (a.branches.flatMap (fun ca => b.branches.map (fun cb => (ca, cb))))).map .disj

/-- Does some branch of the expression hold a predicate of the given type? -/
def containsType (e : AttrExpr) (t : PredType) : Bool :=
  e.branches.any (fun c => c.any (fun p => decide (p.ptype = t)))

/-- Modelled from the spec: the symmetric difference of the two half-open
intervals, as a list of disjoint sub-intervals.  Disjoint operands stay as
they are; overlapping operands contribute the (nonempty) gap between the two
lower bounds and the gap between the two upper bounds. -/
def xorIntervals (a b : Interval) : List Interval :=
  if a.hi ≤ b.lo ∨ b.hi ≤ a.lo then
    [a, b]
  else
    (if min a.lo b.lo < max a.lo b.lo then [⟨min a.lo b.lo, max a.lo b.lo⟩] else []) ++
      (if min a.hi b.hi < max a.hi b.hi then [⟨min a.hi b.hi, max a.hi b.hi⟩] else [])

/-- Is the predicate an interval predicate of the given type? -/
def isIntervalOf (t : IntervalType) : Pred → Bool
  | .interval u _ => decide (u = t)
  | .simple _ _ => false

/-- Modelled from the spec: XOR of one conjunction with an interval predicate
of type `t`: the conjunction must hold exactly one interval predicate of that
type; each sub-interval of the symmetric difference becomes a conjunction of
a single predicate of that type merged with the other predicates already
ANDed onto the operand.  `none` models the TypeError-equivalent. -/
def branchXor (t : IntervalType) (b : Interval) (c : List Pred) : Option (List (List Pred)) :=
  match c.filter (fun p => isIntervalOf t p), c.filter (fun p => !isIntervalOf t p) with
  | [Pred.interval _ aIv], rest =>
    some ((xorIntervals aIv b).map (fun iv => Pred.interval t iv :: rest))
  | _, _ => none

/-- Modelled from the spec: XOR against an interval predicate distributes over
the branches of the left operand and returns the OR of all resulting disjoint
sub-interval conjunctions.  Only interval-valued right operands are
supported (the operation is reserved to interval-valued predicates). -/
def xorExpr (a b : AttrExpr) : Option AttrExpr :=
  match b with
  | .single (.interval t iv) =>
    (optionAll (branchXor t iv) a.branches).map (fun css => .disj css.flatten)
  | _ => none

/-- Total version of `xorExpr` (an undefined application yields the empty
disjunction). -/
def xorExprD (a b : AttrExpr) : AttrExpr :=
  (xorExpr a b).getD (.disj [])

/-- All intervals of the given type occurring in the expression, branch by
branch. -/
def intervalsOf (t : IntervalType) (e : AttrExpr) : List Interval :=
  e.branches.flatMap (fun c => c.filterMap (fun p =>
    match p with
    | .interval u iv => if u = t then some iv else none
    | .simple _ _ => none))

/-- The point set covered by a disjunction of single-interval conjunctions. -/
def exprMemB (t : IntervalType) (e : AttrExpr) (x : Nat) : Bool :=
  (intervalsOf t e).any (fun iv => iv.mem x)

/-! ## Basic lemmas about structural equality and OR -/

theorem msOfList_append {α : Type} (l₁ l₂ : List α) :
    Multiset.ofList (l₁ ++ l₂) = Multiset.ofList l₁ + Multiset.ofList l₂ :=
  (Multiset.coe_add l₁ l₂).symm

theorem msOfList_singleton {α : Type} (a : α) :
    Multiset.ofList [a] = ({a} : Multiset α) :=
  Multiset.coe_singleton a

theorem attrEq_refl (a : AttrExpr) : attrEq a a = true := by
  simp [attrEq]

theorem attrEq_symm (a b : AttrExpr) : attrEq a b = attrEq b a := by
  simp [attrEq, eq_comm]

theorem normalize_disj_append (xs ys : List (List Pred)) :
    (AttrExpr.disj (xs ++ ys)).normalize =
      (AttrExpr.disj xs).normalize + (AttrExpr.disj ys).normalize := by
  simp only [AttrExpr.normalize, AttrExpr.branches, List.map_append, msOfList_append]

/-- Claim C5 helper: `attrOr` of structurally equal arguments is the left
argument. -/
theorem attrOr_of_attrEq {a b : AttrExpr} (h : attrEq a b = true) :
    attrOr a b = a := by
  simp [attrOr, h]

theorem attrOr_of_not_attrEq {a b : AttrExpr} (h : attrEq a b = false) :
    attrOr a b = .disj (a.branches ++ b.branches) := by
  simp [attrOr, h]

theorem normalize_disj_branches (a : AttrExpr) :
    (AttrExpr.disj a.branches).normalize = a.normalize := by
  cases a <;> rfl

/-- Claim C5. The OR combinator is idempotent and commutative up to the structural
(order-independent) equality of attribute expressions. -/
theorem or_idempotent_commutative (a b : AttrExpr) :
    attrEq (attrOr a a) a = true ∧ attrEq (attrOr a b) (attrOr b a) = true := by
  constructor
  · rw [attrOr_of_attrEq (attrEq_refl a)]
    exact attrEq_refl a
  · cases h : attrEq a b with
    | true =>
      have h' : attrEq b a = true := (attrEq_symm a b) ▸ h
      rw [attrOr_of_attrEq h, attrOr_of_attrEq h']
      exact h
    | false =>
      have h' : attrEq b a = false := (attrEq_symm a b) ▸ h
      rw [attrOr_of_not_attrEq h, attrOr_of_not_attrEq h']
      simp only [attrEq, normalize_disj_append, decide_eq_true_eq]
      exact add_comm _ _

/-! ## Lemmas about AND -/

theorem optionAll_eq_none {α β : Type} (f : α → Option β) {l : List α} {a : α}
    (ha : a ∈ l) (hfa : f a = none) : optionAll f l = none := by
  induction l with
  | nil => cases ha
  | cons x xs ih =>
    rcases List.mem_cons.mp ha with h | h
    · subst h
      simp only [optionAll, hfa]
    · simp only [optionAll, ih h]
      cases f x <;> rfl

theorem optionAll_eq_some {α β : Type} (f : α → Option β) (g : α → β) :
    ∀ {l : List α}, (∀ a ∈ l, f a = some (g a)) → optionAll f l = some (l.map g)
  | [], _ => rfl
  | x :: xs, h => by
    simp only [optionAll, h x (List.mem_cons_self x xs),
      optionAll_eq_some f g (fun a ha => h a (List.mem_cons_of_mem x ha)), List.map_cons]

theorem optionAll_map {α γ β : Type} (f : γ → Option β) (g : α → γ) :
    ∀ l : List α, optionAll f (l.map g) = optionAll (fun a => f (g a)) l
  | [] => rfl
  | x :: xs => by
    simp only [List.map_cons, optionAll, optionAll_map f g xs]

theorem conjConjAnd_singleton (ps : List Pred) (q : Pred) :
    conjConjAnd ps [q] = conjAnd ps q := by
  unfold conjConjAnd
  cases h : conjAnd ps q <;> simp [List.foldlM, h]

theorem flatMap_pair_singleton {α β : Type} (y : β) :
    ∀ l : List α, (l.flatMap fun a => [(a, y)]) = l.map (fun a => (a, y))
  | [] => rfl
  | x :: xs => by
    simp only [List.flatMap_cons, List.map_cons, flatMap_pair_singleton y xs]
    rfl

/-- ANDing a single predicate onto an expression adjoins it to every branch
(failing altogether if any branch collides with it). -/
theorem andExpr_single_right (e : AttrExpr) (q : Pred) :
    andExpr e (.single q) =
      (optionAll (fun ca => conjAnd ca q) e.branches).map .disj := by
  unfold andExpr
  have hb : (AttrExpr.single q).branches = [[q]] := rfl
  rw [hb]
  have hfn : (fun ca : List Pred => ([[q]] : List (List Pred)).map (fun cb => (ca, cb))) =
      (fun ca => [(ca, ([q] : List Pred))]) := rfl
  rw [hfn, flatMap_pair_singleton, optionAll_map]
  simp only [conjConjAnd_singleton]

/-- Claim C3. ANDing two predicates of the same exclusive type fails with the
TypeError-equivalent (`none`); the same happens when the second
exclusive-typed predicate is ANDed onto any conjunction or disjunction of
conjunctions that already holds a predicate of that type. -/
theorem and_exclusive_raises :
    (∀ p q : Pred, p.ptype = q.ptype → p.ptype.exclusive = true → p ≠ q →
      andExpr (.single p) (.single q) = none) ∧
    (∀ (e : AttrExpr) (q : Pred), q.ptype.exclusive = true →
      containsType e q.ptype = true → andExpr e (.single q) = none) := by
  have main : ∀ (e : AttrExpr) (q : Pred), q.ptype.exclusive = true →
      containsType e q.ptype = true → andExpr e (.single q) = none := by
    intro e q hexcl hct
    rw [andExpr_single_right]
    obtain ⟨c, hc, p, hp, hpt⟩ : ∃ c ∈ e.branches, ∃ p ∈ c, p.ptype = q.ptype := by
      simpa [containsType, List.any_eq_true] using hct
    have hnone : conjAnd c q = none := by
      unfold conjAnd
      have hany : c.any (fun p => collides p q) = true := by
        refine List.any_eq_true.mpr ⟨p, hp, ?_⟩
        simp [collides, hpt, hexcl]
      simp [hany]
    rw [optionAll_eq_none _ hc hnone]
    rfl
  refine ⟨?_, main⟩
  intro p q hpt hexcl _
  refine main _ _ (hpt ▸ hexcl) ?_
  simp [containsType, AttrExpr.branches, hpt]

/-- Witness for C3, mirroring the duplicate-Instrument tests. -/
theorem and_exclusive_raises_witness :
    andExpr (.single (.simple .instrument "foo")) (.single (.simple .instrument "bar")) = none ∧
    andExpr (.disj [[.simple .instrument "foo"], [.simple .source "foo"]])
      (.single (.simple .instrument "bar")) = none :=
  ⟨and_exclusive_raises.1 _ _ rfl rfl (by decide),
   and_exclusive_raises.2 _ _ rfl (by decide)⟩

theorem attrEq_conj_append_cancel {ps qs : List Pred} (r : Pred)
    (h : attrEq (.disj [ps ++ [r]]) (.disj [qs ++ [r]]) = true) :
    attrEq (.conj ps) (.conj qs) = true := by
  simp only [attrEq, AttrExpr.normalize, AttrExpr.branches, List.map_cons, List.map_nil,
    decide_eq_true_eq] at h ⊢
  rw [msOfList_singleton, msOfList_singleton, Multiset.singleton_inj,
    msOfList_append, msOfList_append] at h
  rw [msOfList_singleton, msOfList_singleton, Multiset.singleton_inj]
  exact add_right_cancel h

theorem conjAnd_of_no_collision {ps : List Pred} {r : Pred}
    (hp : ∀ x ∈ ps, collides x r = false) : conjAnd ps r = some (ps ++ [r]) := by
  unfold conjAnd
  have : ps.any (fun p => collides p r) = false := by
    rw [List.any_eq_false]
    intro x hx
    simp [hp x hx]
  simp [this]

/-- Claim C10. AND distributes over OR: ANDing a non-colliding predicate onto a
disjunction pushes the conjunction into each branch, up to structural
equality. -/
theorem and_distributes_over_or (ps qs : List Pred) (r : Pred)
    (hp : ∀ x ∈ ps, collides x r = false) (hq : ∀ x ∈ qs, collides x r = false) :
    ∃ e e₁ e₂,
      andExpr (attrOr (.conj ps) (.conj qs)) (.single r) = some e ∧
      andExpr (.conj ps) (.single r) = some e₁ ∧
      andExpr (.conj qs) (.single r) = some e₂ ∧
      attrEq e (attrOr e₁ e₂) = true := by
  have hps := conjAnd_of_no_collision hp
  have hqs := conjAnd_of_no_collision hq
  have he₁ : andExpr (.conj ps) (.single r) = some (.disj [ps ++ [r]]) := by
    rw [andExpr_single_right]
    have : optionAll (fun ca => conjAnd ca r) (AttrExpr.conj ps).branches =
        some [ps ++ [r]] := by
      simp only [AttrExpr.branches, optionAll, hps]
    rw [this]; rfl
  have he₂ : andExpr (.conj qs) (.single r) = some (.disj [qs ++ [r]]) := by
    rw [andExpr_single_right]
    have : optionAll (fun ca => conjAnd ca r) (AttrExpr.conj qs).branches =
        some [qs ++ [r]] := by
      simp only [AttrExpr.branches, optionAll, hqs]
    rw [this]; rfl
  cases h : attrEq (.conj ps) (.conj qs) with
  | true =>
    refine ⟨.disj [ps ++ [r]], .disj [ps ++ [r]], .disj [qs ++ [r]], ?_, he₁, he₂, ?_⟩
    · rw [attrOr_of_attrEq h]
      exact he₁
    · have h12 : attrEq (.disj [ps ++ [r]]) (.disj [qs ++ [r]]) = true := by
        simp only [attrEq, AttrExpr.normalize, AttrExpr.branches, List.map_cons, List.map_nil,
          decide_eq_true_eq] at h ⊢
        rw [msOfList_singleton, msOfList_singleton, Multiset.singleton_inj] at h ⊢
        rw [msOfList_append, msOfList_append, h]
      rw [attrOr_of_attrEq h12]
      exact attrEq_refl _
  | false =>
    refine ⟨.disj [ps ++ [r], qs ++ [r]], .disj [ps ++ [r]], .disj [qs ++ [r]], ?_, he₁, he₂, ?_⟩
    · rw [attrOr_of_not_attrEq h, andExpr_single_right]
      have : optionAll (fun ca => conjAnd ca r)
          (AttrExpr.disj ((AttrExpr.conj ps).branches ++ (AttrExpr.conj qs).branches)).branches =
          some [ps ++ [r], qs ++ [r]] := by
        simp only [AttrExpr.branches, List.cons_append, List.nil_append, optionAll, hps, hqs]
      rw [this]; rfl
    · have h12 : attrEq (.disj [ps ++ [r]]) (.disj [qs ++ [r]]) = false := by
        cases h' : attrEq (.disj [ps ++ [r]]) (.disj [qs ++ [r]]) with
        | true => rw [attrEq_conj_append_cancel r h'] at h; cases h
        | false => rfl
      rw [attrOr_of_not_attrEq h12]
      exact attrEq_refl _

/-! ## Lemmas about XOR -/

theorem branchXor_single (t : IntervalType) (b aIv : Interval) :
    branchXor t b [Pred.interval t aIv] =
      some ((xorIntervals aIv b).map (fun iv => [Pred.interval t iv])) := by
  unfold branchXor
  simp [isIntervalOf, List.filter]

theorem xorExpr_single_single (t : IntervalType) (a b : Interval) :
    xorExpr (.single (.interval t a)) (.single (.interval t b)) =
      some (.disj ((xorIntervals a b).map (fun iv => [Pred.interval t iv]))) := by
  unfold xorExpr
  simp only [AttrExpr.branches]
  have h : optionAll (branchXor t b) [[Pred.interval t a]] =
      some [(xorIntervals a b).map (fun iv => [Pred.interval t iv])] := by
    simp [optionAll, branchXor_single]
  rw [h]
  simp

/-- Point-set correctness of the interval symmetric difference. -/
theorem mem_xorIntervals {a b : Interval} (ha : a.lo ≤ a.hi) (hb : b.lo ≤ b.hi) (x : Nat) :
    (∃ iv ∈ xorIntervals a b, iv.mem x = true) ↔
      ((a.mem x = true) ↔ (b.mem x = false)) := by
  unfold xorIntervals
  by_cases hd : a.hi ≤ b.lo ∨ b.hi ≤ a.lo
  · rw [if_pos hd]
    simp [Interval.mem]
    omega
  · rw [if_neg hd]
    by_cases g1 : min a.lo b.lo < max a.lo b.lo <;>
      by_cases g2 : min a.hi b.hi < max a.hi b.hi <;>
        simp [g1, g2, Interval.mem] <;> omega

/-- The sub-intervals of the symmetric difference are pairwise disjoint. -/
theorem xorIntervals_disjoint {a b : Interval} (ha : a.lo ≤ a.hi) (hb : b.lo ≤ b.hi) :
    (xorIntervals a b).Pairwise (fun i j => ∀ x : Nat, ¬(i.mem x = true ∧ j.mem x = true)) := by
  unfold xorIntervals
  by_cases hd : a.hi ≤ b.lo ∨ b.hi ≤ a.lo
  · rw [if_pos hd]
    refine List.Pairwise.cons ?_ (List.pairwise_singleton _ _)
    intro j hj x
    rw [List.mem_singleton] at hj
    subst hj
    simp [Interval.mem]
    omega
  · rw [if_neg hd]
    by_cases g1 : min a.lo b.lo < max a.lo b.lo <;>
      by_cases g2 : min a.hi b.hi < max a.hi b.hi
    · rw [if_pos g1, if_pos g2]
      refine List.Pairwise.cons ?_ (List.pairwise_singleton _ _)
      intro j hj x
      rw [show ([] : List Interval).append [({ lo := a.hi ⊓ b.hi, hi := a.hi ⊔ b.hi } : Interval)] =
        [({ lo := a.hi ⊓ b.hi, hi := a.hi ⊔ b.hi } : Interval)] from rfl, List.mem_singleton] at hj
      subst hj
      simp [Interval.mem]
      omega
    · rw [if_pos g1, if_neg g2]
      exact List.pairwise_singleton _ _
    · rw [if_neg g1, if_pos g2]
      exact List.pairwise_singleton _ _
    · rw [if_neg g1, if_neg g2]
      exact List.Pairwise.nil

/-- Claim C2. XOR of two interval predicates of the same type returns the
set-symmetric-difference of the two (half-open) intervals, expressed as an
OR (a disjunction) whose branches are the resulting pairwise-disjoint
sub-interval predicates. -/
theorem xor_symmetric_difference (t : IntervalType) (a b : Interval)
    (ha : a.lo ≤ a.hi) (hb : b.lo ≤ b.hi) :
    xorExpr (.single (.interval t a)) (.single (.interval t b)) =
      some (.disj ((xorIntervals a b).map (fun iv => [Pred.interval t iv]))) ∧
    (∀ x : Nat, (∃ iv ∈ xorIntervals a b, iv.mem x = true) ↔
      ((a.mem x = true) ↔ (b.mem x = false))) ∧
    (xorIntervals a b).Pairwise (fun i j => ∀ x : Nat, ¬(i.mem x = true ∧ j.mem x = true)) :=
  ⟨xorExpr_single_single t a b, fun x => mem_xorIntervals ha hb x, xorIntervals_disjoint ha hb⟩

/-- Witness for C2: the spec's Time example, in hours since 2010-01-01 00:00:
Time(0,24) XOR Time(1,2) yields OR[Time(0,1), Time(2,24)]. -/
theorem xor_symmetric_difference_witness :
    (0 : Nat) ≤ 24 ∧ (1 : Nat) ≤ 2 ∧
    xorIntervals ⟨0, 24⟩ ⟨1, 2⟩ = [⟨0, 1⟩, ⟨2, 24⟩] ∧
    (xorExpr (.single (.interval .time ⟨0, 24⟩)) (.single (.interval .time ⟨1, 2⟩)) =
        some (.disj ((xorIntervals ⟨0, 24⟩ ⟨1, 2⟩).map (fun iv => [Pred.interval .time iv]))) ∧
      (∀ x : Nat, (∃ iv ∈ xorIntervals ⟨0, 24⟩ ⟨1, 2⟩, iv.mem x = true) ↔
        ((Interval.mem ⟨0, 24⟩ x = true) ↔ (Interval.mem ⟨1, 2⟩ x = false))) ∧
      (xorIntervals ⟨0, 24⟩ ⟨1, 2⟩).Pairwise
        (fun i j => ∀ x : Nat, ¬(i.mem x = true ∧ j.mem x = true))) :=
  ⟨by decide, by decide, by decide,
   xor_symmetric_difference .time ⟨0, 24⟩ ⟨1, 2⟩ (by decide) (by decide)⟩

theorem xorIntervals_nested {a b : Interval} (h1 : a.lo ≤ b.lo) (h2 : b.hi ≤ a.hi)
    (h3 : b.lo < b.hi) :
    xorIntervals a b =
      (if a.lo < b.lo then [⟨a.lo, b.lo⟩] else []) ++
        (if b.hi < a.hi then [⟨b.hi, a.hi⟩] else []) := by
  unfold xorIntervals
  rw [if_neg (by omega), min_eq_left h1, max_eq_right h1, min_eq_right h2, max_eq_left h2]

theorem xorIntervals_left_disjoint {p b : Interval} (h : p.hi ≤ b.lo) :
    xorIntervals p b = [p, b] := by
  unfold xorIntervals
  rw [if_pos (Or.inl h)]

theorem xorIntervals_right_disjoint {p b : Interval} (h : b.hi ≤ p.lo) :
    xorIntervals p b = [p, b] := by
  unfold xorIntervals
  rw [if_pos (Or.inr h)]

theorem flatten_map_map {α β γ : Type} (h : α → β) (f : γ → List α) :
    ∀ l : List γ, (l.map (fun i => (f i).map h)).flatten = (l.flatMap f).map h
  | [] => rfl
  | x :: xs => by
    simp [List.flatMap_cons, flatten_map_map h f xs]

theorem xorExpr_disj_singletons (t : IntervalType) (b : Interval) (ivs : List Interval) :
    xorExpr (.disj (ivs.map (fun iv => [Pred.interval t iv]))) (.single (.interval t b)) =
      some (.disj ((ivs.flatMap (fun iv => xorIntervals iv b)).map
        (fun jv => [Pred.interval t jv]))) := by
  unfold xorExpr
  simp only [AttrExpr.branches]
  rw [optionAll_map]
  rw [optionAll_eq_some (fun iv => branchXor t b [Pred.interval t iv])
    (fun iv => (xorIntervals iv b).map (fun jv => [Pred.interval t jv]))
    (fun iv _ => branchXor_single t b iv)]
  simp only [Option.map_some']
  rw [flatten_map_map]

theorem intervalsOf_disj_singletons (t : IntervalType) :
    ∀ js : List Interval,
      intervalsOf t (.disj (js.map (fun iv => [Pred.interval t iv]))) = js
  | [] => rfl
  | j :: js => by
    have ih := intervalsOf_disj_singletons t js
    simp only [intervalsOf, AttrExpr.branches, List.map_cons, List.flatMap_cons] at ih ⊢
    simp only [List.filterMap_cons, List.filterMap_nil, if_pos rfl, ih]
    rfl

/-- Claim C4, amended. For a proper sub-interval B of A (both of the same interval
type), (A XOR B) XOR B is defined and covers exactly A's point set; the
involution holds extensionally (pointwise), though not as structural
equality of expressions. -/
theorem xor_involution_pointwise (t : IntervalType) (a b : Interval)
    (h1 : a.lo ≤ b.lo) (h2 : b.hi ≤ a.hi) (h3 : b.lo < b.hi)
    (h4 : a.lo < b.lo ∨ b.hi < a.hi) :
    (xorExpr (xorExprD (.single (.interval t a)) (.single (.interval t b)))
        (.single (.interval t b))).isSome = true ∧
    ∀ x : Nat,
      exprMemB t (xorExprD (xorExprD (.single (.interval t a)) (.single (.interval t b)))
        (.single (.interval t b))) x = Interval.mem a x := by
  have hstep1 : xorExprD (.single (.interval t a)) (.single (.interval t b)) =
      .disj ((xorIntervals a b).map (fun iv => [Pred.interval t iv])) := by
    rw [xorExprD, xorExpr_single_single]
    rfl
  have hstep2 := xorExpr_disj_singletons t b (xorIntervals a b)
  constructor
  · rw [hstep1, hstep2]
    rfl
  · intro x
    rw [hstep1]
    have hD : xorExprD (.disj ((xorIntervals a b).map (fun iv => [Pred.interval t iv])))
        (.single (.interval t b)) =
        .disj (((xorIntervals a b).flatMap (fun iv => xorIntervals iv b)).map
          (fun jv => [Pred.interval t jv])) := by
      rw [xorExprD, hstep2]
      rfl
    rw [hD, exprMemB, intervalsOf_disj_singletons, xorIntervals_nested h1 h2 h3]
    rcases Nat.lt_or_ge a.lo b.lo with hg1 | hg1 <;>
      rcases Nat.lt_or_ge b.hi a.hi with hg2 | hg2
    · rw [if_pos hg1, if_pos hg2, List.cons_append, List.nil_append,
        List.flatMap_cons, List.flatMap_cons, List.flatMap_nil,
        @xorIntervals_left_disjoint ⟨a.lo, b.lo⟩ b (le_refl _),
        @xorIntervals_right_disjoint ⟨b.hi, a.hi⟩ b (le_refl _)]
      rw [Bool.eq_iff_iff]
      simp [Interval.mem]
      omega
    · rw [if_pos hg1, if_neg (by omega), List.append_nil, List.flatMap_cons, List.flatMap_nil,
        @xorIntervals_left_disjoint ⟨a.lo, b.lo⟩ b (le_refl _)]
      rw [Bool.eq_iff_iff]
      simp [Interval.mem]
      omega
    · rw [if_neg (by omega), if_pos hg2, List.nil_append, List.flatMap_cons, List.flatMap_nil,
        @xorIntervals_right_disjoint ⟨b.hi, a.hi⟩ b (le_refl _)]
      rw [Bool.eq_iff_iff]
      simp [Interval.mem]
      omega
    · exfalso
      omega

/-- Witness for the amended C4, at the spec's literal Time example. -/
theorem xor_involution_pointwise_witness :
    (0 : Nat) ≤ 1 ∧ (2 : Nat) ≤ 24 ∧ (1 : Nat) < 2 ∧ ((0 : Nat) < 1 ∨ (2 : Nat) < 24) ∧
    ((xorExpr (xorExprD (.single (.interval .time ⟨0, 24⟩)) (.single (.interval .time ⟨1, 2⟩)))
        (.single (.interval .time ⟨1, 2⟩))).isSome = true ∧
      ∀ x : Nat,
        exprMemB .time (xorExprD (xorExprD (.single (.interval .time ⟨0, 24⟩))
          (.single (.interval .time ⟨1, 2⟩))) (.single (.interval .time ⟨1, 2⟩))) x =
          Interval.mem ⟨0, 24⟩ x) :=
  ⟨by decide, by decide, by decide, by decide,
   xor_involution_pointwise .time ⟨0, 24⟩ ⟨1, 2⟩ (by decide) (by decide) (by decide) (by decide)⟩

/-- Counterexample for claim C4: with A = Time(0,24) and B = Time(1,2) (hours since
2010-01-01), (A XOR B) XOR B is defined but the resulting attribute
expression is NOT structurally equal to A, so the claimed structural
involution fails at this input. -/
theorem xor_involution_counterexample :
    (xorExpr (xorExprD (.single (.interval .time ⟨0, 24⟩)) (.single (.interval .time ⟨1, 2⟩)))
        (.single (.interval .time ⟨1, 2⟩))).isSome = true ∧
    attrEq (xorExprD (xorExprD (.single (.interval .time ⟨0, 24⟩))
        (.single (.interval .time ⟨1, 2⟩))) (.single (.interval .time ⟨1, 2⟩)))
      (.single (.interval .time ⟨0, 24⟩)) = false := by
  constructor
  · decide
  · decide

/-- Witness for C10, mirroring `test_attror_and`. -/
theorem and_distributes_over_or_witness :
    (∀ x ∈ [Pred.simple .instrument "foo"], collides x (.simple .source "bar") = false) ∧
    (∀ x ∈ [Pred.simple .instrument "bar"], collides x (.simple .source "bar") = false) ∧
    (∃ e e₁ e₂,
      andExpr (attrOr (.conj [.simple .instrument "foo"]) (.conj [.simple .instrument "bar"]))
        (.single (.simple .source "bar")) = some e ∧
      andExpr (.conj [.simple .instrument "foo"]) (.single (.simple .source "bar")) = some e₁ ∧
      andExpr (.conj [.simple .instrument "bar"]) (.single (.simple .source "bar")) = some e₂ ∧
      attrEq e (attrOr e₁ e₂) = true) :=
  ⟨by decide, by decide,
   and_distributes_over_or _ _ _ (by decide) (by decide)⟩

/-! ## The provider response model -/

/-- The (parsed) start/end time pair of a record; a missing value is one the
provider never reported. -/
structure TimePair where
  start : Option Nat
  stop : Option Nat
deriving DecidableEq, Repr

/-- The extent sub-object of a record; only its type sub-field is consumed. -/
structure Extent where
  etype : String
deriving DecidableEq, Repr

/-- Modelled from the spec: one raw result record with its identity fields,
size, nullable time range and nullable extent. -/
structure VSORecord where
  size : Nat
  time : TimePair
  source : String
  instrument : String
  provider : String
  extent : Option Extent
  fileid : String
deriving DecidableEq, Repr

/-- Modelled from the spec: a provider item either carries a block of
records or an error entry. -/
inductive ProviderItem
  | recordBlock (recorditem : List VSORecord)
  | errorItem (msg : String)
deriving DecidableEq, Repr

/-- Modelled from the spec: a raw provider response, grouped by provider. -/
structure ZeepResponse where
  provideritem : List ProviderItem
deriving DecidableEq, Repr

/-- Modelled from the spec: iter_records flattens all records across all
provider groups, in group order then record order. -/
def iter_records (resp : ZeepResponse) : List VSORecord :=
  resp.provideritem.flatMap (fun it =>
    match it with
    | .recordBlock rs => rs
    | .errorItem _ => [])

/-- Modelled from the spec: iter_errors lists all error entries in group
order. -/
def iter_errors (resp : ZeepResponse) : List String :=
  resp.provideritem.flatMap (fun it =>
    match it with
    | .recordBlock _ => []
    | .errorItem m => [m])

/-- Sorting bucket of a record: 0 = has a start time, 1 = no start time but
an end time, 2 = neither. -/
def rank (r : VSORecord) : Nat :=
  if r.time.start.isSome then 0 else if r.time.stop.isSome then 1 else 2

/-- Sort key among records that carry a start time. -/
def startVal (r : VSORecord) : Nat :=
  r.time.start.getD 0

def startLE (x y : VSORecord) : Prop :=
  startVal x ≤ startVal y

instance : DecidableRel startLE :=
  fun _ _ => Nat.decLe _ _

instance : IsTotal VSORecord startLE :=
  ⟨fun _ _ => Nat.le_total _ _⟩

instance : IsTrans VSORecord startLE :=
  ⟨fun _ _ _ => Nat.le_trans⟩

/-- Modelled from the spec: sort_response: records with a start time first,
stably sorted by start time ascending; then, within the null-start bucket,
the records that have an end time before those that lack one, each sub-bucket
in original order. -/
def iter_sort_response (resp : ZeepResponse) : List VSORecord :=
  List.insertionSort startLE ((iter_records resp).filter (fun r => rank r == 0)) ++
    ((iter_records resp).filter (fun r => rank r == 1) ++
      (iter_records resp).filter (fun r => rank r == 2))

/-- Builds one record of the mock test fixture. -/
def mkRec (start stop : Option Nat) (fid : String) : VSORecord :=
  { size := 0, time := { start := start, stop := stop }, source := "SOHO",
    instrument := "aia", provider := "SunPy", extent := none, fileid := fid }

/-- The unsorted mock response of the test suite (start times in seconds
past 2021-01-01 00:00:00; fileids t4,t1,t2,f1,f2,t3; one error item). -/
def mock_response : ZeepResponse :=
  { provideritem :=
      [.recordBlock [mkRec (some 4) none "t4", mkRec (some 1) none "t1",
        mkRec (some 2) none "t2", mkRec none none "f1", mkRec none none "f2",
        mkRec (some 3) none "t3"],
       .errorItem "FAILED"] }

/-! ## Stability of the insertion sort under key-equal filters -/

theorem filter_orderedInsert_pos {α : Type} (r : α → α → Prop) [DecidableRel r]
    (p : α → Bool) (x : α) (hx : p x = true) :
    ∀ L : List α, (∀ b ∈ L, p b = true → r x b) →
      (L.orderedInsert r x).filter p = x :: L.filter p := by
  intro L
  induction L with
  | nil =>
    intro _
    simp [List.orderedInsert, hx]
  | cons b L ih =>
    intro h
    by_cases hrb : r x b
    · rw [List.orderedInsert, if_pos hrb, List.filter_cons, if_pos hx]
    · have hpb : p b = false := by
        cases hpb : p b with
        | true => exact absurd (h b (List.mem_cons_self b L) hpb) hrb
        | false => rfl
      rw [List.orderedInsert, if_neg hrb, List.filter_cons, if_neg (by simp [hpb]),
        ih (fun c hc hpc => h c (List.mem_cons_of_mem b hc) hpc), List.filter_cons,
        if_neg (by simp [hpb])]

theorem filter_orderedInsert_neg {α : Type} (r : α → α → Prop) [DecidableRel r]
    (p : α → Bool) (x : α) (hx : p x = false) :
    ∀ L : List α, (L.orderedInsert r x).filter p = L.filter p := by
  intro L
  induction L with
  | nil => simp [List.orderedInsert, hx]
  | cons b L ih =>
    by_cases hrb : r x b
    · rw [List.orderedInsert, if_pos hrb, List.filter_cons, if_neg (by simp [hx])]
    · rw [List.orderedInsert, if_neg hrb, List.filter_cons, ih, ← List.filter_cons]

/-- Filtering a stably sorted list by a class of key-equal elements recovers
exactly the original filtered (sub-)sequence: the sort is stable. -/
theorem filter_insertionSort_eq {α : Type} (r : α → α → Prop) [DecidableRel r] (p : α → Bool)
    (hkey : ∀ a b : α, p a = true → p b = true → r a b) :
    ∀ l : List α, (List.insertionSort r l).filter p = l.filter p := by
  intro l
  induction l with
  | nil => rfl
  | cons x xs ih =>
    rw [List.insertionSort]
    cases hx : p x with
    | true =>
      rw [filter_orderedInsert_pos r p x hx _ (fun b _ hb => hkey x b hx hb), ih,
        List.filter_cons, if_pos hx]
    | false =>
      rw [filter_orderedInsert_neg r p x hx, ih, List.filter_cons, if_neg (by simp [hx])]

/-! ## Properties of sort_response -/

theorem rank_lt_three (r : VSORecord) : rank r = 0 ∨ rank r = 1 ∨ rank r = 2 := by
  unfold rank
  by_cases h1 : r.time.start.isSome = true <;> by_cases h2 : r.time.stop.isSome = true <;>
    simp [h1, h2]

theorem start_none_of_rank_ne_zero {r : VSORecord} (h : rank r ≠ 0) : r.time.start = none := by
  cases hs : r.time.start with
  | none => rfl
  | some v =>
    exfalso
    apply h
    unfold rank
    rw [hs]
    rfl

theorem startVal_of_rank_ne_zero {r : VSORecord} (h : rank r ≠ 0) : startVal r = 0 := by
  unfold startVal
  rw [start_none_of_rank_ne_zero h]
  rfl

theorem rank_zero_of_start_eq {r : VSORecord} {s : Nat} (h : r.time.start = some s) :
    rank r = 0 := by
  unfold rank
  rw [h]
  rfl

theorem partition3_perm (l : List VSORecord) :
    (l.filter (fun r => rank r == 0) ++
      (l.filter (fun r => rank r == 1) ++ l.filter (fun r => rank r == 2))).Perm l := by
  induction l with
  | nil => simp
  | cons x xs ih =>
    rcases rank_lt_three x with h | h | h
    · simp only [List.filter_cons]
      rw [if_pos (by simp [h]), if_neg (by simp [h]), if_neg (by simp [h])]
      exact ih.cons x
    · simp only [List.filter_cons]
      rw [if_neg (by simp [h]), if_pos (by simp [h]), if_neg (by simp [h])]
      exact List.perm_middle.trans (ih.cons x)
    · simp only [List.filter_cons]
      rw [if_neg (by simp [h]), if_neg (by simp [h]), if_pos (by simp [h]), ← List.append_assoc]
      refine List.perm_middle.trans (List.Perm.cons x ?_)
      rw [List.append_assoc]
      exact ih

theorem iter_sort_response_perm (resp : ZeepResponse) :
    (iter_sort_response resp).Perm (iter_records resp) := by
  unfold iter_sort_response
  refine List.Perm.trans ?_ (partition3_perm (iter_records resp))
  exact (List.perm_insertionSort startLE _).append (List.Perm.refl _)

/-- The total order the sorted response satisfies: strictly smaller bucket
first; inside a bucket, start values ascending. -/
def recOrd (x y : VSORecord) : Prop :=
  rank x < rank y ∨ (rank x = rank y ∧ startVal x ≤ startVal y)

theorem nat_eq_of_beq {a b : Nat} (h : (a == b) = true) : a = b := by
  simpa using h

theorem rank_of_mem_filter {l : List VSORecord} {k : Nat} {r : VSORecord}
    (h : r ∈ l.filter (fun r => rank r == k)) : rank r = k :=
  nat_eq_of_beq (List.mem_filter.mp h).2

theorem iter_sort_response_pairwise (resp : ZeepResponse) :
    (iter_sort_response resp).Pairwise recOrd := by
  unfold iter_sort_response
  rw [List.pairwise_append]
  refine ⟨?_, ?_, ?_⟩
  · have hs : (List.insertionSort startLE
        ((iter_records resp).filter (fun r => rank r == 0))).Pairwise startLE :=
      List.sorted_insertionSort startLE _
    refine hs.imp_of_mem ?_
    intro a b ha hb hle
    have hra : rank a = 0 := rank_of_mem_filter ((List.mem_insertionSort startLE).mp ha)
    have hrb : rank b = 0 := rank_of_mem_filter ((List.mem_insertionSort startLE).mp hb)
    exact Or.inr ⟨by rw [hra, hrb], hle⟩
  · rw [List.pairwise_append]
    refine ⟨?_, ?_, ?_⟩
    · refine List.pairwise_of_forall_mem_list ?_
      intro a ha b hb
      have hra : rank a = 1 := rank_of_mem_filter ha
      have hrb : rank b = 1 := rank_of_mem_filter hb
      refine Or.inr ⟨by rw [hra, hrb], ?_⟩
      rw [startVal_of_rank_ne_zero (by omega), startVal_of_rank_ne_zero (by omega)]
    · refine List.pairwise_of_forall_mem_list ?_
      intro a ha b hb
      have hra : rank a = 2 := rank_of_mem_filter ha
      have hrb : rank b = 2 := rank_of_mem_filter hb
      refine Or.inr ⟨by rw [hra, hrb], ?_⟩
      rw [startVal_of_rank_ne_zero (by omega), startVal_of_rank_ne_zero (by omega)]
    · intro a ha b hb
      have hra : rank a = 1 := rank_of_mem_filter ha
      have hrb : rank b = 2 := rank_of_mem_filter hb
      exact Or.inl (by omega)
  · intro a ha b hb
    have hra : rank a = 0 := rank_of_mem_filter ((List.mem_insertionSort startLE).mp ha)
    rcases List.mem_append.mp hb with hb1 | hb2
    · have hrb : rank b = 1 := rank_of_mem_filter hb1
      exact Or.inl (by omega)
    · have hrb : rank b = 2 := rank_of_mem_filter hb2
      exact Or.inl (by omega)

theorem filter_rank_nil_of_ne {l : List VSORecord} {j k : Nat} (hjk : j ≠ k) :
    (l.filter (fun r => rank r == j)).filter (fun r => rank r == k) = [] := by
  rw [List.filter_eq_nil_iff]
  intro a ha
  have := rank_of_mem_filter ha
  simp [this, hjk]

theorem iter_sort_response_stable_start (resp : ZeepResponse) (s : Nat) :
    (iter_sort_response resp).filter (fun r => r.time.start == some s) =
      (iter_records resp).filter (fun r => r.time.start == some s) := by
  unfold iter_sort_response
  rw [List.filter_append, List.filter_append]
  have hkey : ∀ a b : VSORecord, (a.time.start == some s) = true →
      (b.time.start == some s) = true → startLE a b := by
    intro a b ha hb
    have ha' : a.time.start = some s := by simpa using ha
    have hb' : b.time.start = some s := by simpa using hb
    unfold startLE startVal
    rw [ha', hb']
  rw [filter_insertionSort_eq startLE _ hkey, List.filter_filter]
  have hmain : (iter_records resp).filter
      (fun a => (a.time.start == some s) && (rank a == 0)) =
      (iter_records resp).filter (fun a => a.time.start == some s) := by
    apply List.filter_congr
    intro a _
    cases hsa : (a.time.start == some s) with
    | false => rfl
    | true =>
      have : rank a = 0 := rank_zero_of_start_eq (by simpa using hsa)
      simp [this]
  have h1 : ((iter_records resp).filter (fun r => rank r == 1)).filter
      (fun r => r.time.start == some s) = [] := by
    rw [List.filter_eq_nil_iff]
    intro a ha
    have hra : rank a = 1 := rank_of_mem_filter ha
    have : a.time.start = none := start_none_of_rank_ne_zero (by omega)
    simp [this]
  have h2 : ((iter_records resp).filter (fun r => rank r == 2)).filter
      (fun r => r.time.start == some s) = [] := by
    rw [List.filter_eq_nil_iff]
    intro a ha
    have hra : rank a = 2 := rank_of_mem_filter ha
    have : a.time.start = none := start_none_of_rank_ne_zero (by omega)
    simp [this]
  rw [hmain, h1, h2, List.append_nil, List.append_nil]

theorem iter_sort_response_stable_rank1 (resp : ZeepResponse) :
    (iter_sort_response resp).filter (fun r => rank r == 1) =
      (iter_records resp).filter (fun r => rank r == 1) := by
  unfold iter_sort_response
  rw [List.filter_append, List.filter_append]
  have hkey : ∀ a b : VSORecord, (rank a == 1) = true → (rank b == 1) = true → startLE a b := by
    intro a b ha hb
    have hra : rank a = 1 := nat_eq_of_beq ha
    have hrb : rank b = 1 := nat_eq_of_beq hb
    unfold startLE
    rw [startVal_of_rank_ne_zero (by omega), startVal_of_rank_ne_zero (by omega)]
  rw [filter_insertionSort_eq startLE _ hkey,
    @filter_rank_nil_of_ne (iter_records resp) 0 1 (by omega),
    @filter_rank_nil_of_ne (iter_records resp) 2 1 (by omega), List.append_nil,
    List.nil_append, List.filter_eq_self.mpr (fun a ha => (List.mem_filter.mp ha).2)]

theorem iter_sort_response_stable_rank2 (resp : ZeepResponse) :
    (iter_sort_response resp).filter (fun r => rank r == 2) =
      (iter_records resp).filter (fun r => rank r == 2) := by
  unfold iter_sort_response
  rw [List.filter_append, List.filter_append]
  have hkey : ∀ a b : VSORecord, (rank a == 2) = true → (rank b == 2) = true → startLE a b := by
    intro a b ha hb
    have hra : rank a = 2 := nat_eq_of_beq ha
    have hrb : rank b = 2 := nat_eq_of_beq hb
    unfold startLE
    rw [startVal_of_rank_ne_zero (by omega), startVal_of_rank_ne_zero (by omega)]
  rw [filter_insertionSort_eq startLE _ hkey,
    @filter_rank_nil_of_ne (iter_records resp) 0 2 (by omega),
    @filter_rank_nil_of_ne (iter_records resp) 1 2 (by omega), List.nil_append,
    List.nil_append, List.filter_eq_self.mpr (fun a ha => (List.mem_filter.mp ha).2)]

/-- Claim C1, amended. sort_response orders records by bucket (start time present
first, then null-start records with an end time, then the rest) and by start
time ascending inside the first bucket; it permutes the flattened records,
preserves the original relative order among records of equal start time and
within each null-start sub-bucket; on the mock response it yields fileid
order [t1,t2,t3,t4,f1,f2]. -/
theorem sort_response_spec :
    (∀ resp : ZeepResponse,
      (iter_sort_response resp).Perm (iter_records resp) ∧
      (iter_sort_response resp).Pairwise recOrd ∧
      (∀ s : Nat, (iter_sort_response resp).filter (fun r => r.time.start == some s) =
        (iter_records resp).filter (fun r => r.time.start == some s)) ∧
      ((iter_sort_response resp).filter (fun r => rank r == 1) =
        (iter_records resp).filter (fun r => rank r == 1)) ∧
      ((iter_sort_response resp).filter (fun r => rank r == 2) =
        (iter_records resp).filter (fun r => rank r == 2))) ∧
    (iter_sort_response mock_response).map (fun r => r.fileid) =
      ["t1", "t2", "t3", "t4", "f1", "f2"] :=
  ⟨fun resp => ⟨iter_sort_response_perm resp, iter_sort_response_pairwise resp,
    iter_sort_response_stable_start resp, iter_sort_response_stable_rank1 resp,
    iter_sort_response_stable_rank2 resp⟩, by decide⟩

/-- A response whose two records both lack a start time, in original order
"a" (no end time) then "b" (with an end time). -/
def cx_response : ZeepResponse :=
  { provideritem := [.recordBlock [mkRec none none "a", mkRec none (some 5) "b"]] }

/-- Counterexample for claim C1 as stated: among the null-start records
of `cx_response` the original relative order is ["a", "b"], yet
`iter_sort_response` returns them as ["b", "a"] (the record carrying an end
time is moved ahead), so the original relative order among null-start
records is not preserved. -/
theorem sort_response_counterexample :
    (iter_records cx_response).map (fun r => r.fileid) = ["a", "b"] ∧
    (∀ r ∈ iter_records cx_response, r.time.start = none) ∧
    (iter_sort_response cx_response).map (fun r => r.fileid) = ["b", "a"] := by
  refine ⟨by decide, by decide, by decide⟩

/-! ## Table projection (build_table / from_zeep_response) -/

/-- The columns a VSO query response table can carry. -/
inductive ColName
  | startTime
  | endTime
  | source
  | instrument
  | provider
  | size
  | extentType
  | fileid
deriving DecidableEq, Repr

/-- Display title of a column. -/
def ColName.title : ColName → String
  | .startTime => "Start Time"
  | .endTime => "End Time"
  | .source => "Source"
  | .instrument => "Instrument"
  | .provider => "Provider"
  | .size => "Size"
  | .extentType => "Extent Type"
  | .fileid => "fileid"

/-- A table cell value (a parsed time stands as its scalar value). -/
inductive Cell
  | nat (n : Nat)
  | str (s : String)
deriving DecidableEq, Repr

/-- Modelled from the spec: the cell one record contributes to one column;
`none` means the record contributes no cell at all for that column (a record
with no start time contributes no "Start Time" cell, a record without an
extent contributes no "Extent Type" cell; of an extent only its type
sub-field is kept). -/
def cellOf (r : VSORecord) : ColName → Option Cell
  | .startTime => r.time.start.map .nat
  | .endTime => r.time.stop.map .nat
  | .source => some (.str r.source)
  | .instrument => some (.str r.instrument)
  | .provider => some (.str r.provider)
  | .size => some (.nat r.size)
  | .extentType => r.extent.map (fun e => .str e.etype)
  | .fileid => some (.str r.fileid)

/-- Canonical column order of the table. -/
def canonicalColumns : List ColName :=
  [.startTime, .endTime, .source, .instrument, .provider, .size, .extentType, .fileid]

/-- Modelled from the spec: build_table projects the sorted record sequence
into named columns; a missing field leaves a null cell; a column is dropped
entirely exactly when no record contributes a cell for it. -/
def build_table (resp : ZeepResponse) : List (ColName × List (Option Cell)) :=
  (canonicalColumns.filter
      (fun c => (iter_sort_response resp).any (fun r => (cellOf r c).isSome))).map
    (fun c => (c, (iter_sort_response resp).map (fun r => cellOf r c)))

theorem startTime_of_title {c : ColName} (h : c.title = "Start Time") : c = .startTime := by
  cases c <;> first | rfl | (exfalso; revert h; decide)

/-- Claim C6. When no record of the response carries a start time, the built table
has no "Start Time" column at all; fields that are present (here: the end
time of some record) still yield their column, each record contributing its
(possibly null) parsed cell. -/
theorem build_table_no_start_time (resp : ZeepResponse)
    (h : ∀ r ∈ iter_records resp, r.time.start = none)
    (r₀ : VSORecord) (hr : r₀ ∈ iter_records resp) (he : r₀.time.stop.isSome = true) :
    "Start Time" ∉ (build_table resp).map (fun col => col.1.title) ∧
    (ColName.endTime, (iter_sort_response resp).map (fun r => r.time.stop.map Cell.nat)) ∈
      build_table resp := by
  have hmem : ∀ r, r ∈ iter_sort_response resp ↔ r ∈ iter_records resp :=
    fun r => (iter_sort_response_perm resp).mem_iff
  constructor
  · intro hcontra
    obtain ⟨col, hcol, htitle⟩ := List.mem_map.mp hcontra
    obtain ⟨c, hc, hceq⟩ := List.mem_map.mp hcol
    have hcstart : c = .startTime := startTime_of_title (by rw [← hceq] at htitle; exact htitle)
    subst hcstart
    have hany := (List.mem_filter.mp hc).2
    obtain ⟨r, hrmem, hrsome⟩ := List.any_eq_true.mp hany
    have : r.time.start = none := h r ((hmem r).mp hrmem)
    rw [cellOf, this] at hrsome
    exact absurd hrsome (by decide)
  · have hin : ColName.endTime ∈ canonicalColumns.filter
        (fun c => (iter_sort_response resp).any (fun r => (cellOf r c).isSome)) := by
      rw [List.mem_filter]
      refine ⟨by decide, List.any_eq_true.mpr ⟨r₀, (hmem r₀).mpr hr, ?_⟩⟩
      rw [cellOf]
      cases hstop : r₀.time.stop with
      | none => rw [hstop] at he; exact absurd he (by decide)
      | some v => rfl
    unfold build_table
    exact List.mem_map.mpr ⟨ColName.endTime, hin, rfl⟩

/-- Witness for C6: a single record carrying only an end time (the
`test_QueryResponse_build_table_with_no_start_time` fixture). -/
theorem build_table_no_start_time_witness :
    (∀ r ∈ iter_records { provideritem := [.recordBlock [mkRec none (some 77) "spam"]] },
      r.time.start = none) ∧
    mkRec none (some 77) "spam" ∈
      iter_records { provideritem := [.recordBlock [mkRec none (some 77) "spam"]] } ∧
    (mkRec none (some 77) "spam").time.stop.isSome = true ∧
    ("Start Time" ∉
        (build_table { provideritem := [.recordBlock [mkRec none (some 77) "spam"]] }).map
          (fun col => col.1.title) ∧
      (ColName.endTime,
          (iter_sort_response
              { provideritem := [.recordBlock [mkRec none (some 77) "spam"]] }).map
            (fun r => r.time.stop.map Cell.nat)) ∈
        build_table { provideritem := [.recordBlock [mkRec none (some 77) "spam"]] }) :=
  ⟨by decide, by decide, by decide,
   build_table_no_start_time _ (by decide) (mkRec none (some 77) "spam") (by decide) (by decide)⟩

/-! ## The attribute walker -/

/-- Modelled from the spec: the predicate forms the Walker dispatches on: a
value attribute carrying key-path/value entries, and the parser-sentinel
DummyAttr for which no handler is registered. -/
inductive WalkAttr
  | value (entries : List (List String × Nat))
  | dummy

/-- A nested provider parameter dictionary, flattened to key paths. -/
def ParamDict : Type := List (List String × Nat)

/-- Sets one key path in the parameter dictionary (dropping a previous
binding of the same path). -/
def setParam (d : ParamDict) (kv : List String × Nat) : ParamDict :=
  (d.filter (fun e => decide (e.1 ≠ kv.1))) ++ [kv]

/-- Modelled from the spec: walker.apply writes the provider-specific keys
derived from the predicate into the parameter dictionary; an unrecognized
placeholder predicate is a hard dispatch error (`.error "TypeError"`), not a
silent no-op. -/
def walker_apply : WalkAttr → Option Nat → ParamDict → Except String ParamDict
  | .value es, _, d => .ok (es.foldl setParam d)
  | .dummy, _, _ => .error "TypeError"

/-- Modelled from the spec: walker.create builds the list of provider
request objects for the predicate; same dispatch and failure policy as
apply. -/
def walker_create : WalkAttr → Option Nat → Except String (List ParamDict)
  | .value es, _ => .ok [es.foldl setParam []]
  | .dummy, _ => .error "TypeError"

/-- Claim C9. Both Walker operations reject the unrecognized placeholder predicate
with a hard dispatch error, in every context and on every parameter
dictionary. -/
theorem walker_rejects_dummy (ctx : Option Nat) (d : ParamDict) :
    walker_apply .dummy ctx d = .error "TypeError" ∧
    walker_create .dummy ctx = .error "TypeError" :=
  ⟨rfl, rfl⟩

/-! ## Client: fetch and construction -/

/-- Outcome of a fetch call: how often the injected downloader was invoked,
and the resulting file collection. -/
structure FetchResult where
  downloadCalls : Nat
  results : List String
deriving DecidableEq, Repr

/-- Modelled from the spec: Client.fetch maps each selected row to a
retrieval URL and hands them to the injected downloader in one download
call; with zero selected rows it performs no download call and returns the
empty result collection; the `wait` flag controls blocking only, never the
outcome. `callsBefore` counts the downloader invocations made so far. -/
def fetch (rows : List VSORecord) (path : String) (wait : Bool) (callsBefore : Nat) :
    FetchResult :=
  if rows.isEmpty then { downloadCalls := callsBefore, results := [] }
  else { downloadCalls := callsBefore + 1, results := rows.map (fun r => path ++ r.fileid) }

/-- Claim C7. fetch on zero rows never invokes the injected downloader and returns
the empty result collection, for every path, wait mode and prior state. -/
theorem fetch_no_rows (path : String) (wait : Bool) (calls : Nat) :
    fetch [] path wait calls = { downloadCalls := calls, results := [] } :=
  rfl

/-- Modelled from the spec: the errors a client construction can raise. -/
inductive ClientError
  | connectionError
  | valueError
deriving DecidableEq, Repr

/-- The candidate VSO wsdl mirror endpoints probed at construction. -/
def DEFAULT_URL_PORT : List String :=
  ["http://docs.virtualsolar.org/WSDL/VSOi_rpc_literal.wsdl",
   "https://sdac.virtualsolar.org/API/VSOi_rpc_literal.wsdl"]

/-- A constructed client holding its resolved mirror endpoint. -/
structure ClientHandle where
  mirror : String
deriving DecidableEq, Repr

/-- Modelled from the spec: get_online_vso_url probes the candidate wsdl
links with the injected connectivity check and returns the first that yields
a valid HTTP response; it returns none when no link does. -/
def get_online_vso_url (check : String → Option Nat) (mirrors : List String) : Option String :=
  mirrors.find? (fun m => (check m).isSome)

/-- Modelled from the spec: VSOClient construction probes the mirrors once
(no retry loop); if none responds it fails with a ConnectionError — fatal,
no partial or degraded mode. -/
def VSOClient_init (check : String → Option Nat) (mirrors : List String) :
    Except ClientError ClientHandle :=
  match get_online_vso_url check mirrors with
  | none => .error .connectionError
  | some m => .ok { mirror := m }

/-- Modelled from the spec: build_client requires url and port_name to be
given together (ValueError otherwise); with both given, a failing
connectivity check on the url is a ConnectionError; with neither it falls
back to probing the default mirrors. -/
def build_client (check : String → Option Nat) (url port_name : Option String) :
    Except ClientError ClientHandle :=
  match url, port_name with
  | some u, some _ => if (check u).isSome then .ok { mirror := u } else .error .connectionError
  | none, none => VSOClient_init check DEFAULT_URL_PORT
  | _, _ => .error .valueError

/-- Claim C8. With no candidate mirror responding to the liveness probe,
get_online_vso_url returns none and both construction paths fail with a
ConnectionError — deterministically, since construction is a pure function
of the probe outcomes. -/
theorem client_no_mirror_connection_error (check : String → Option Nat)
    (mirrors : List String) (u p : String) (h : ∀ m, check m = none) :
    get_online_vso_url check mirrors = none ∧
    VSOClient_init check mirrors = .error .connectionError ∧
    build_client check (some u) (some p) = .error .connectionError := by
  have hfind : get_online_vso_url check mirrors = none := by
    rw [get_online_vso_url, List.find?_eq_none]
    intro m _
    rw [h m]
    decide
  refine ⟨hfind, ?_, ?_⟩
  · rw [VSOClient_init, hfind]
  · rw [build_client, h u]
    rfl

/-- Witness for C8: the everywhere-dead connectivity check. -/
theorem client_no_mirror_connection_error_witness :
    (∀ m, (fun _ : String => (none : Option Nat)) m = none) ∧
    (get_online_vso_url (fun _ => none) DEFAULT_URL_PORT = none ∧
      VSOClient_init (fun _ => none) DEFAULT_URL_PORT = .error .connectionError ∧
      build_client (fun _ => none) (some "http://notathing.com/") (some "spam") =
        .error .connectionError) :=
  ⟨fun _ => rfl,
   client_no_mirror_connection_error (fun _ => none) DEFAULT_URL_PORT
     "http://notathing.com/" "spam" (fun _ => rfl)⟩

end SunpyVSO
